import Mathlib

/-!
Shallow embedding of the reward/evaluation core of the Qwen-VL-Series-Finetune
repository: the Prompt-1 parser and reward (`src/train/reward_funcs_prompt1.py`),
the Prompt-2 parser and reward (`src/train/reward_funcs_prompt2.py`), the
ranking-metrics library (`metrics/localization_metrics.py`) and the bucket
classifier (`metrics/eval_grpo2_synth_pred_mix.py`).

Python strings are modelled as `List Char`; Python floats are modelled by `ℝ`
(exact real arithmetic) where the code divides by `log2`, and by `ℚ` where all
the arithmetic is rational.  `re.findall(r"\d+", text)` is modelled by an
explicit maximal-digit-run scanner.
-/

/-! ### Digit-run extraction: `re.findall(r"\d+", text)` followed by `int(...)` -/

/-- Scanner state: the digit run currently being read (as its accumulated
numeric value), if any.  Mirrors a left-to-right scan for maximal runs of
`\d`. -/
def findAllNatsAux : List Char → Option ℕ → List ℕ
  | [], none => []
  | [], some n => [n]
  | c :: rest, none =>
      if c.isDigit then findAllNatsAux rest (some (c.toNat - 48))
      else findAllNatsAux rest none
  | c :: rest, some n =>
      if c.isDigit then findAllNatsAux rest (some (n * 10 + (c.toNat - 48)))
      else n :: findAllNatsAux rest none

/-- Python `[int(tok) for tok in re.findall(r"\d+", text)]`. -/
def findall_nats (text : List Char) : List ℕ :=
  findAllNatsAux text none

/-! ### `reward_funcs_prompt1._parse_region_ids_any` and `_parse_gt_ids` -/

/-- Python `_parse_region_ids_any(text)`: extract all integers; require exactly 3,
each in `[1, 16]`, pairwise distinct; otherwise `None`. -/
def _parse_region_ids_any (text : List Char) : Option (List ℕ) :=
  let ids := findall_nats text
  if ids.length ≠ 3 then none
  else if ids.any (fun rid => rid < 1 || 16 < rid) then none
  else if ids.dedup.length ≠ 3 then none
  else some ids

/-- Python `_parse_gt_ids(text)`: extract all integers, no validation. -/
def _parse_gt_ids (text : List Char) : List ℕ :=
  findall_nats text

/-- Python `_strict_format_score(completions)`: 1.0 per completion whose parse
succeeds, else 0.0. -/
def _strict_format_score (completions : List (List Char)) : List ℝ :=
  completions.map (fun completion =>
    if (_parse_region_ids_any completion).isSome then (1 : ℝ) else 0)

/-! ### `metrics/localization_metrics.recall_at_k` -/

/-- Python `recall_at_k(pred, gt, k) = len([r for r in pred[:k] if r in set(gt)]) / k`.
The count is over the top-`k` *entries* (with multiplicity). -/
def recall_at_k (pred gt : List ℤ) (k : ℕ) : ℚ :=
  (((pred.take k).countP (fun r => decide (r ∈ gt)) : ℕ) : ℚ) / (k : ℚ)

/-- The formula stated by the spec for `recall_at_k`:
`|top_k(pred) ∩ set(gt)| / k` with a genuine *set* intersection.  Kept
separate from `recall_at_k` (which is translated from the source) so that the
two can be compared. -/
def recall_at_k_set_formula (pred gt : List ℤ) (k : ℕ) : ℚ :=
  ((((pred.take k).toFinset ∩ gt.toFinset).card : ℕ) : ℚ) / (k : ℚ)

/-! ### `metrics/eval_grpo2_synth_pred_mix._bucket` -/

/-- Python `_bucket(gt, pred)`: classify by `(c, p)` where `c` counts predicted
entries present in `gt` and `p` counts positional matches among the first 3
positions. -/
def _bucket (gt pred : List ℤ) : String :=
  let c := pred.countP (fun x => decide (x ∈ gt))
  let p := pred.enum.countP (fun ix =>
    decide (ix.1 < 3 ∧ ix.1 < gt.length ∧ ix.2 = gt.getD ix.1 0))
  if c = 0 then "wrong0"
  else if c = 1 then (if p = 1 then "one_correct_order" else "one_not_order")
  else if c = 2 then (if p = 2 then "two_correct_order" else "two_not_order")
  else if c = 3 then (if p = 3 then "three_correct_order" else "three_not_order")
  else "invalid"

/-! ### Helper lemmas -/

/-- Python `len(set(l)) = len(l)` exactly when `l` has no duplicates. -/
lemma nodup_iff_dedup_length {α : Type} [DecidableEq α] (l : List α) :
    l.dedup.length = l.length ↔ l.Nodup := by
  constructor
  · intro h
    have hsub : l.dedup.Sublist l := List.dedup_sublist l
    have : l.dedup = l := hsub.eq_of_length h
    rw [← this]
    exact l.nodup_dedup
  · intro h
    rw [List.dedup_eq_self.mpr h]

/-! ### C5 — the Prompt-1 "strict" parser is in fact permissive -/

/-- C5 counterexample: the claim says `"[1,2,3]"` (no space after the commas)
must yield `None` and format score 0; the code parses it to `[1,2,3]` and
gives format score 1. -/
theorem parse_any_C5_counterexample :
    _parse_region_ids_any "[1,2,3]".toList = some [1, 2, 3] ∧
    _strict_format_score ["[1,2,3]".toList] = [1] := by
  constructor <;> rfl

/-- C5 (amended): the Prompt-1 parser used by `_strict_format_score` is
delimiter-agnostic: it accepts a completion iff the text contains exactly 3
integers, each in `[1, 16]`, pairwise distinct.  In particular both
`"[1, 2, 3]"` and `"[1,2,3]"` parse to `[1,2,3]`, while `"[1, 1, 2]"`
(duplicate) and `"[1, 2, 17]"` (out of range) yield `None`, and the format
score is 1.0 exactly on parseable completions. -/
theorem parse_any_C5_amended (text : List Char) :
    ((_parse_region_ids_any text).isSome ↔
      ((findall_nats text).length = 3 ∧
        (∀ r ∈ findall_nats text, 1 ≤ r ∧ r ≤ 16) ∧
        (findall_nats text).Nodup)) ∧
    _strict_format_score [text] =
      [if (_parse_region_ids_any text).isSome then (1 : ℝ) else 0] ∧
    _parse_region_ids_any "[1, 2, 3]".toList = some [1, 2, 3] ∧
    _parse_region_ids_any "[1,2,3]".toList = some [1, 2, 3] ∧
    _parse_region_ids_any "[1, 1, 2]".toList = none ∧
    _parse_region_ids_any "[1, 2, 17]".toList = none := by
  refine ⟨?_, rfl, by decide, by decide, by decide, by decide⟩
  unfold _parse_region_ids_any
  dsimp only
  split_ifs with h1 h2 h3
  · simp only [Option.isSome_none, Bool.false_eq_true, false_iff]
    intro h
    exact h1 h.1
  · simp only [Option.isSome_none, Bool.false_eq_true, false_iff]
    intro h
    rcases h with ⟨-, hb, -⟩
    rw [List.any_eq_true] at h2
    rcases h2 with ⟨r, hr, hcond⟩
    rcases hb r hr with ⟨hge, hle⟩
    simp only [Bool.or_eq_true, decide_eq_true_eq] at hcond
    omega
  · simp only [Option.isSome_none, Bool.false_eq_true, false_iff]
    intro h
    rcases h with ⟨hlen, -, hnd⟩
    exact h3 (((nodup_iff_dedup_length _).mpr hnd).trans hlen)
  · have h1' : (findall_nats text).length = 3 := by omega
    have h3' : (findall_nats text).dedup.length = 3 := by omega
    simp only [Option.isSome_some, true_iff]
    refine ⟨h1', ?_, ?_⟩
    · intro r hr
      by_contra hc
      push_neg at hc
      apply h2
      rw [List.any_eq_true]
      exact ⟨r, hr, by simp only [Bool.or_eq_true, decide_eq_true_eq]; omega⟩
    · exact (nodup_iff_dedup_length _).mp (h3'.trans h1'.symm)

/-- C5 amended witness at a concrete accepted completion. -/
theorem parse_any_C5_witness :
    (_parse_region_ids_any "[1, 2, 3]".toList).isSome := by
  exact (parse_any_C5_amended "[1, 2, 3]".toList).1.mpr (by decide)

/-! ### C6 — `recall_at_k` counts entries with multiplicity, not a set
intersection -/

/-- C6 counterexample: with duplicated top-`k` entries the code's value
differs from the spec's set-intersection formula: for `pred = [1,1,2]`,
`gt = [1]`, `k = 2` the code returns `2/2 = 1` but
`|top_2(pred) ∩ set(gt)| / 2 = 1/2`. -/
theorem recall_C6_counterexample :
    recall_at_k [1, 1, 2] [1] 2 = 1 ∧
    recall_at_k_set_formula [1, 1, 2] [1] 2 = 1 / 2 ∧
    recall_at_k [1, 1, 2] [1] 2 ≠ recall_at_k_set_formula [1, 1, 2] [1] 2 := by
  refine ⟨by norm_num [recall_at_k], by norm_num [recall_at_k_set_formula], ?_⟩
  norm_num [recall_at_k, recall_at_k_set_formula]

/-- C6 (amended): for `k ≥ 1` and `len(pred) ≥ k`, `recall_at_k` equals the
number of top-`k` entries (counted with multiplicity) lying in `set(gt)`,
divided by `k`; this agrees with the set-intersection formula whenever the
top-`k` entries are pairwise distinct.  The value lies in `[0, 1]` and equals
1.0 iff every top-`k` prediction is in `set(gt)`. -/
theorem recall_C6_amended (pred gt : List ℤ) (k : ℕ) (hk : 0 < k)
    (hlen : k ≤ pred.length) :
    ((pred.take k).Nodup →
      recall_at_k pred gt k = recall_at_k_set_formula pred gt k) ∧
    0 ≤ recall_at_k pred gt k ∧ recall_at_k pred gt k ≤ 1 ∧
    (recall_at_k pred gt k = 1 ↔ ∀ x ∈ pred.take k, x ∈ gt) := by
  have hkQ : (0 : ℚ) < (k : ℚ) := by exact_mod_cast hk
  have htklen : (pred.take k).length = k := by
    rw [List.length_take]
    omega
  have hcount_le : (pred.take k).countP (fun r => decide (r ∈ gt)) ≤ k := by
    calc (pred.take k).countP (fun r => decide (r ∈ gt))
        ≤ (pred.take k).length := List.countP_le_length _
      _ = k := htklen
  refine ⟨?_, ?_, ?_, ?_⟩
  · intro hnd
    unfold recall_at_k recall_at_k_set_formula
    congr 2
    have hfilter_nodup : ((pred.take k).filter (fun r => decide (r ∈ gt))).Nodup :=
      hnd.filter _
    calc (pred.take k).countP (fun r => decide (r ∈ gt))
        = ((pred.take k).filter (fun r => decide (r ∈ gt))).length :=
          List.countP_eq_length_filter _ _
      _ = ((pred.take k).filter (fun r => decide (r ∈ gt))).toFinset.card :=
          (List.toFinset_card_of_nodup hfilter_nodup).symm
      _ = ((pred.take k).toFinset ∩ gt.toFinset).card := by
          rw [List.toFinset_filter]
          congr 1
          ext x
          simp [Finset.mem_filter, Finset.mem_inter, List.mem_toFinset]
  · unfold recall_at_k
    positivity
  · unfold recall_at_k
    rw [div_le_one hkQ]
    exact_mod_cast hcount_le
  · unfold recall_at_k
    rw [div_eq_one_iff_eq (ne_of_gt hkQ)]
    rw [show ((k : ℚ)) = ((k : ℕ) : ℚ) from rfl, Nat.cast_inj]
    constructor
    · intro h x hx
      have hall := (List.countP_eq_length (p := fun r => decide (r ∈ gt))
        (l := pred.take k)).mp (by rw [h, htklen])
      simpa using hall x hx
    · intro h
      rw [List.countP_eq_length.mpr (fun a ha => by simpa using h a ha), htklen]

/-- C6 amended witness: `pred = [1,2,3]`, `gt = [3,1,2]`, `k = 2`. -/
theorem recall_C6_witness :
    0 ≤ recall_at_k [1, 2, 3] [3, 1, 2] 2 ∧
    recall_at_k [1, 2, 3] [3, 1, 2] 2 = 1 := by
  have h := recall_C6_amended [1, 2, 3] [3, 1, 2] 2 (by norm_num) (by norm_num)
  exact ⟨h.2.1, h.2.2.2.mpr (by decide)⟩

/-! ### C9 — the bucket classifier -/

/-- C9: for 3-element GT and prediction lists the classifier returns one of
the 7 named buckets — never `"invalid"` — and on GT `[1,2,3]` the predictions
`[1,2,3]`, `[3,2,1]`, `[1,5,6]`, `[5,6,7]` land in `three_correct_order`,
`three_not_order`, `one_correct_order`, `wrong0` respectively. -/
theorem bucket_C9 (gt pred : List ℤ) (hg : gt.length = 3)
    (hp : pred.length = 3) :
    (_bucket gt pred ∈ ["wrong0", "one_not_order", "one_correct_order",
        "two_not_order", "two_correct_order", "three_not_order",
        "three_correct_order"] ∧
      _bucket gt pred ≠ "invalid") ∧
    (gt = [1, 2, 3] →
      (pred = [1, 2, 3] → _bucket gt pred = "three_correct_order") ∧
      (pred = [3, 2, 1] → _bucket gt pred = "three_not_order") ∧
      (pred = [1, 5, 6] → _bucket gt pred = "one_correct_order") ∧
      (pred = [5, 6, 7] → _bucket gt pred = "wrong0")) := by
  constructor
  · have hc : pred.countP (fun x => decide (x ∈ gt)) ≤ 3 := by
      calc pred.countP (fun x => decide (x ∈ gt)) ≤ pred.length :=
            List.countP_le_length _
        _ = 3 := hp
    unfold _bucket
    dsimp only
    split_ifs <;> first | decide | omega
  · rintro rfl
    refine ⟨?_, ?_, ?_, ?_⟩ <;> (rintro rfl; decide)

/-- C9 witness at `gt = [1,2,3]`, `pred = [5,6,7]`. -/
theorem bucket_C9_witness : _bucket [1, 2, 3] [5, 6, 7] = "wrong0" :=
  ((bucket_C9 [1, 2, 3] [5, 6, 7] rfl rfl).2 rfl).2.2.2 rfl

/-! ### `metrics/localization_metrics.dcg_at_k` / `ndcg_at_k` (binary
relevance), with `math.log2` modelled by `Real.logb 2` -/

/-- Python `dcg_at_k(pred, gt, k) = Σ_{j=1..k} (2^rel_j - 1)/log2(j+1)` with
`rel_j = 1` iff `pred[j-1] ∈ set(gt)` (index shifted to start at 0). -/
noncomputable def dcg_at_k (pred gt : List ℤ) (k : ℕ) : ℝ :=
  ∑ j ∈ Finset.range k,
    ((2 : ℝ) ^ (if pred.getD j 0 ∈ gt then (1 : ℕ) else 0) - 1) /
      Real.logb 2 (j + 2)

/-- Python `ndcg_at_k(pred, gt, k) = dcg/idcg` with
`idcg = Σ_{j=1..min(k,|set(gt)|)} 1/log2(j+1)`, and 0.0 when that upper
limit is 0. -/
noncomputable def ndcg_at_k (pred gt : List ℤ) (k : ℕ) : ℝ :=
  let dcg := dcg_at_k pred gt k
  let m := min k gt.toFinset.card
  if m = 0 then 0
  else dcg / (∑ j ∈ Finset.range m, 1 / Real.logb 2 (j + 2))

lemma logb_two_succ_succ_pos (j : ℕ) : 0 < Real.logb 2 ((j : ℝ) + 2) := by
  apply Real.logb_pos one_lt_two
  have : (0 : ℝ) ≤ (j : ℝ) := Nat.cast_nonneg j
  linarith

/-- C7: `ndcg_at_k` returns 0.0 on empty GT (no division by zero), and
returns 1.0 whenever the first `min(k, |set(gt)|)` positions of a
duplicate-free prediction of length ≥ k are exactly the positions holding GT
members; in particular `ndcg_at_k [1,2,3] [1,2] 3 = 1`. -/
theorem ndcg_C7 (pred gt : List ℤ) (k : ℕ) :
    (gt = [] → ndcg_at_k pred gt k = 0) ∧
    (0 < k → k ≤ pred.length → pred.Nodup → gt ≠ [] →
      (∀ j < k, (pred.getD j 0 ∈ gt ↔ j < min k gt.toFinset.card)) →
      ndcg_at_k pred gt k = 1) := by
  constructor
  · rintro rfl
    simp [ndcg_at_k]
  · intro hk hlen hnd hgt hplace
    have hcard : 0 < gt.toFinset.card := by
      rcases List.exists_mem_of_ne_nil gt hgt with ⟨x, hx⟩
      exact Finset.card_pos.mpr ⟨x, List.mem_toFinset.mpr hx⟩
    have hm0 : ¬ min k gt.toFinset.card = 0 := by omega
    have hmk : min k gt.toFinset.card ≤ k := Nat.min_le_left _ _
    have hidcg : (0 : ℝ) <
        ∑ j ∈ Finset.range (min k gt.toFinset.card),
          1 / Real.logb 2 (j + 2) := by
      apply Finset.sum_pos
      · intro j hj
        exact one_div_pos.mpr (logb_two_succ_succ_pos j)
      · exact Finset.nonempty_range_iff.mpr hm0
    have hsum : dcg_at_k pred gt k =
        ∑ j ∈ Finset.range (min k gt.toFinset.card),
          1 / Real.logb 2 (j + 2) := by
      unfold dcg_at_k
      calc ∑ j ∈ Finset.range k,
            ((2 : ℝ) ^ (if pred.getD j 0 ∈ gt then (1 : ℕ) else 0) - 1) /
              Real.logb 2 (j + 2)
          = ∑ j ∈ Finset.range (min k gt.toFinset.card),
            ((2 : ℝ) ^ (if pred.getD j 0 ∈ gt then (1 : ℕ) else 0) - 1) /
              Real.logb 2 (j + 2) := by
            refine (Finset.sum_subset (Finset.range_subset.mpr hmk) ?_).symm
            intro j hjk hjm
            rw [Finset.mem_range] at hjk hjm
            rw [if_neg (fun hmem => hjm ((hplace j hjk).mp hmem))]
            norm_num
        _ = ∑ j ∈ Finset.range (min k gt.toFinset.card),
            1 / Real.logb 2 (j + 2) := by
            refine Finset.sum_congr rfl ?_
            intro j hj
            rw [Finset.mem_range] at hj
            rw [if_pos ((hplace j (lt_of_lt_of_le hj hmk)).mpr hj)]
            norm_num
    unfold ndcg_at_k
    dsimp only
    rw [if_neg hm0, hsum]
    exact div_self (ne_of_gt hidcg)

/-- C7 witness: `ndcg_at_k [1,2,3] [1,2] 3 = 1` and the empty-GT case. -/
theorem ndcg_C7_witness :
    ndcg_at_k [1, 2, 3] [1, 2] 3 = 1 ∧ ndcg_at_k [1, 2, 3] [] 3 = 0 :=
  ⟨(ndcg_C7 [1, 2, 3] [1, 2] 3).2 (by norm_num) (by norm_num) (by decide)
      (by decide) (by decide),
    (ndcg_C7 [1, 2, 3] [] 3).1 rfl⟩

/-! ### `reward_funcs_prompt1._ndcg_at_3` — graded nDCG@3

The Python dict `rel_by_id` (insertion-ordered, first occurrence kept) is
modelled as an association list built by the same loop. -/

/-- The loop `for rank, rid in enumerate(gt[:3]): if rid in rel_by_id:
continue; rel_by_id[rid] = 3 - rank`, one association appended per
first-seen id. -/
def buildRelAux : List ℕ → ℕ → List (ℕ × ℕ) → List (ℕ × ℕ)
  | [], _, acc => acc
  | rid :: rest, rank, acc =>
      if (acc.lookup rid).isSome then buildRelAux rest (rank + 1) acc
      else buildRelAux rest (rank + 1) (acc ++ [(rid, 3 - rank)])

/-- Python `rel_by_id` built from the first 3 GT ids. -/
def relAssoc (gt : List ℕ) : List (ℕ × ℕ) :=
  buildRelAux (gt.take 3) 0 []

/-- Python `rel_by_id.get(x, 0)`. -/
def relOf (gt : List ℕ) (x : ℕ) : ℕ :=
  ((relAssoc gt).lookup x).getD 0

/-- Python `sorted(rel_by_id.values(), reverse=True)` (dict values appear in
insertion order). -/
def idealRels (gt : List ℕ) : List ℕ :=
  List.insertionSort (fun a b => b ≤ a) ((relAssoc gt).map Prod.snd)

/-- Python `_ndcg_at_3(pred, gt)`: graded DCG over the predicted order divided by
the ideal DCG from the GT's own relevance values; 0.0 when GT contributes no
relevance. -/
noncomputable def _ndcg_at_3 (pred gt : List ℕ) : ℝ :=
  let dcg := ∑ j ∈ Finset.range 3,
    ((2 : ℝ) ^ relOf gt (pred.getD j 0) - 1) / Real.logb 2 (j + 2)
  let m := min 3 (idealRels gt).length
  if m = 0 then 0
  else dcg / (∑ j ∈ Finset.range m,
    ((2 : ℝ) ^ (idealRels gt).getD j 0 - 1) / Real.logb 2 (j + 2))

lemma lookup_mem {l : List (ℕ × ℕ)} {x v : ℕ} (h : l.lookup x = some v) :
    (x, v) ∈ l := by
  induction l with
  | nil => simp [List.lookup] at h
  | cons p rest ih =>
    obtain ⟨k, w⟩ := p
    rw [List.lookup_cons] at h
    by_cases hxk : x = k
    · subst hxk
      simp only [beq_self_eq_true] at h
      obtain rfl : w = v := by injection h
      exact List.mem_cons_self _ _
    · have hbeq : (x == k) = false := beq_eq_false_iff_ne.mpr hxk
      rw [hbeq] at h
      exact List.mem_cons_of_mem _ (ih h)

/-- Invariant of the `rel_by_id` construction loop: values are appended in
strictly decreasing order, stay in `[1, 3]`, at most one entry per list
element, and every key comes from the scanned list. -/
lemma buildRelAux_spec (l : List ℕ) (rank : ℕ) (acc : List (ℕ × ℕ))
    (hrank : rank + l.length ≤ 3)
    (hlow : ∀ v ∈ acc.map Prod.snd, 3 - rank < v)
    (hhigh : ∀ v ∈ acc.map Prod.snd, v ≤ 3)
    (hchain : (acc.map Prod.snd).Chain' (· > ·)) :
    (∃ tail, (buildRelAux l rank acc).map Prod.snd = acc.map Prod.snd ++ tail) ∧
    (∀ v ∈ (buildRelAux l rank acc).map Prod.snd,
      3 - (rank + l.length) < v ∧ v ≤ 3) ∧
    ((buildRelAux l rank acc).map Prod.snd).Chain' (· > ·) ∧
    (buildRelAux l rank acc).length ≤ acc.length + l.length ∧
    (∀ p ∈ buildRelAux l rank acc, p ∈ acc ∨ p.1 ∈ l) := by
  induction l generalizing rank acc with
  | nil =>
    refine ⟨⟨[], by simp [buildRelAux]⟩, ?_, hchain, by simp [buildRelAux], ?_⟩
    · intro v hv
      have h1 := hlow v hv
      have h2 := hhigh v hv
      omega
    · intro p hp
      exact Or.inl hp
  | cons rid rest ih =>
    have hlen : (rid :: rest).length = rest.length + 1 := rfl
    by_cases hins : (acc.lookup rid).isSome
    · have hstep : buildRelAux (rid :: rest) rank acc =
          buildRelAux rest (rank + 1) acc := by
        rw [buildRelAux, if_pos hins]
      obtain ⟨htail, hbnd, hch, hln, hmem⟩ := ih (rank + 1) acc
        (by omega)
        (fun v hv => by have := hlow v hv; omega)
        hhigh hchain
      rw [hstep]
      refine ⟨htail, ?_, hch, by omega, ?_⟩
      · intro v hv
        have := hbnd v hv
        omega
      · intro p hp
        rcases hmem p hp with h | h
        · exact Or.inl h
        · exact Or.inr (List.mem_cons_of_mem _ h)
    · have hstep : buildRelAux (rid :: rest) rank acc =
          buildRelAux rest (rank + 1) (acc ++ [(rid, 3 - rank)]) := by
        rw [buildRelAux, if_neg hins]
      have hvals' : (acc ++ [(rid, 3 - rank)]).map Prod.snd =
          acc.map Prod.snd ++ [3 - rank] := by simp
      obtain ⟨htail, hbnd, hch, hln, hmem⟩ := ih (rank + 1)
        (acc ++ [(rid, 3 - rank)])
        (by omega)
        (by
          rw [hvals']
          intro v hv
          rcases List.mem_append.mp hv with h | h
          · have := hlow v h
            omega
          · have : v = 3 - rank := List.mem_singleton.mp h
            omega)
        (by
          rw [hvals']
          intro v hv
          rcases List.mem_append.mp hv with h | h
          · exact hhigh v h
          · have : v = 3 - rank := List.mem_singleton.mp h
            omega)
        (by
          rw [hvals']
          rw [List.chain'_append]
          refine ⟨hchain, List.chain'_singleton _, ?_⟩
          intro a ha b hb
          have ha' : a ∈ acc.map Prod.snd := List.mem_of_mem_getLast? ha
          have hb' : b = 3 - rank := by
            simp only [List.head?_cons, Option.mem_def, Option.some.injEq] at hb
            exact hb.symm
          have := hlow a ha'
          omega)
      rw [hstep]
      refine ⟨?_, ?_, hch, by simp at hln ⊢; omega, ?_⟩
      · obtain ⟨tail, htl⟩ := htail
        rw [hvals'] at htl
        exact ⟨(3 - rank) :: tail, by rw [htl]; simp⟩
      · intro v hv
        have := hbnd v hv
        omega
      · intro p hp
        rcases hmem p hp with h | h
        · rcases List.mem_append.mp h with h' | h'
          · exact Or.inl h'
          · have : p = (rid, 3 - rank) := List.mem_singleton.mp h'
            exact Or.inr (by rw [this]; exact List.mem_cons_self _ _)
        · exact Or.inr (List.mem_cons_of_mem _ h)

lemma relAssoc_spec (gt : List ℕ) :
    (∀ v ∈ (relAssoc gt).map Prod.snd, 1 ≤ v ∧ v ≤ 3) ∧
    ((relAssoc gt).map Prod.snd).Chain' (· > ·) ∧
    (relAssoc gt).length ≤ 3 ∧
    (∀ p ∈ relAssoc gt, p.1 ∈ gt.take 3) := by
  have htk : (gt.take 3).length ≤ 3 := List.length_take_le 3 gt
  obtain ⟨-, hbnd, hch, hln, hmem⟩ := buildRelAux_spec (gt.take 3) 0 []
    (by omega) (by simp) (by simp) (by simp)
  have hlen3 : (relAssoc gt).length ≤ 3 := by
    unfold relAssoc
    have h2 : (buildRelAux (gt.take 3) 0 []).length ≤ 0 + (gt.take 3).length := by
      simpa using hln
    omega
  refine ⟨?_, hch, hlen3, ?_⟩
  · intro v hv
    have := hbnd v hv
    omega
  · intro p hp
    rcases hmem p hp with h | h
    · simp at h
    · exact h

lemma relAssoc_head3 (gt : List ℕ) (h : gt ≠ []) :
    ∃ tail, (relAssoc gt).map Prod.snd = 3 :: tail := by
  obtain ⟨x, rest, rfl⟩ := List.exists_cons_of_ne_nil h
  have htake : (x :: rest).take 3 = x :: rest.take 2 := rfl
  have hstep : relAssoc (x :: rest) = buildRelAux (rest.take 2) 1 [(x, 3)] := by
    unfold relAssoc
    rw [htake, buildRelAux]
    norm_num [List.lookup]
  obtain ⟨⟨tail, htl⟩, -, -, -, -⟩ := buildRelAux_spec (rest.take 2) 1 [(x, 3)]
    (by have := List.length_take_le 2 rest; omega)
    (by simp) (by simp) (by simp)
  exact ⟨tail, by rw [hstep, htl]; simp⟩

lemma relOf_le_three (gt : List ℕ) (x : ℕ) : relOf gt x ≤ 3 := by
  unfold relOf
  cases h : (relAssoc gt).lookup x with
  | none => simp
  | some v =>
    have hv : v ∈ (relAssoc gt).map Prod.snd :=
      List.mem_map_of_mem Prod.snd (lookup_mem h)
    simpa using ((relAssoc_spec gt).1 v hv).2

lemma relOf_mem_vals (gt : List ℕ) (x : ℕ) (h : relOf gt x ≠ 0) :
    relOf gt x ∈ (relAssoc gt).map Prod.snd := by
  unfold relOf at *
  cases hl : (relAssoc gt).lookup x with
  | none => rw [hl] at h; simp at h
  | some v =>
    simp only [Option.getD_some]
    exact List.mem_map_of_mem Prod.snd (lookup_mem hl)

lemma relOf_inj (gt : List ℕ) (x y : ℕ) (hx : relOf gt x ≠ 0) (hy : relOf gt y ≠ 0)
    (hxy : x ≠ y) : relOf gt x ≠ relOf gt y := by
  have hnd : ((relAssoc gt).map Prod.snd).Nodup := by
    have hch := (relAssoc_spec gt).2.1
    have hpw := (List.chain'_iff_pairwise.mp hch)
    exact hpw.imp (fun {a b} hab => Nat.ne_of_gt hab)
  unfold relOf at *
  cases hlx : (relAssoc gt).lookup x with
  | none => rw [hlx] at hx; simp at hx
  | some vx =>
    cases hly : (relAssoc gt).lookup y with
    | none => rw [hly] at hy; simp at hy
    | some vy =>
      simp only [Option.getD_some]
      intro heq
      subst heq
      have hmx := lookup_mem hlx
      have hmy := lookup_mem hly
      have := List.inj_on_of_nodup_map hnd hmx hmy rfl
      exact hxy (congrArg Prod.fst this)

lemma relOf_zero_of_not_mem (gt : List ℕ) (x : ℕ) (h : x ∉ gt.take 3) : relOf gt x = 0 := by
  unfold relOf
  cases hl : (relAssoc gt).lookup x with
  | none => simp
  | some v =>
    exact absurd ((relAssoc_spec gt).2.2.2 _ (lookup_mem hl)) h

lemma idealRels_eq_vals (gt : List ℕ) :
    idealRels gt = (relAssoc gt).map Prod.snd := by
  unfold idealRels
  apply List.Sorted.insertionSort_eq
  have hch := (relAssoc_spec gt).2.1
  have hpw := List.chain'_iff_pairwise.mp hch
  exact hpw.imp (fun {a b} hab => Nat.le_of_lt hab)

lemma idealRels_shape (gt : List ℕ) (h : gt ≠ []) :
    idealRels gt = [3] ∨ idealRels gt = [3, 2] ∨ idealRels gt = [3, 1] ∨
      idealRels gt = [3, 2, 1] := by
  rw [idealRels_eq_vals]
  obtain ⟨tail, htl⟩ := relAssoc_head3 gt h
  have hbnd := (relAssoc_spec gt).1
  have hch := (relAssoc_spec gt).2.1
  have hln : ((relAssoc gt).map Prod.snd).length ≤ 3 := by
    simpa using (relAssoc_spec gt).2.2.1
  rw [htl] at hbnd hch hln ⊢
  match tail, hbnd, hch, hln with
  | [], _, _, _ => exact Or.inl rfl
  | [a], hbnd, hch, _ =>
    have ha3 : 3 > a := by
      simpa using (List.chain'_cons.mp hch).1
    have ha1 : 1 ≤ a := (hbnd a (by simp)).1
    interval_cases a
    · exact Or.inr (Or.inr (Or.inl rfl))
    · exact Or.inr (Or.inl rfl)
  | [a, b], hbnd, hch, _ =>
    have ha3 : 3 > a := by
      simpa using (List.chain'_cons.mp hch).1
    have hab : a > b := by
      simpa using (List.chain'_cons.mp (List.chain'_cons.mp hch).2).1
    have hb1 : 1 ≤ b := (hbnd b (by simp)).1
    have ha : a = 2 := by omega
    have hb : b = 1 := by omega
    subst ha
    subst hb
    exact Or.inr (Or.inr (Or.inr rfl))
  | a :: b :: c :: rest, _, _, hln => simp at hln

/-! ### Numeric facts about `log2` at the three discount positions -/

lemma logb_two_two : Real.logb 2 2 = 1 :=
  Real.logb_self_eq_one (by norm_num)

lemma logb_two_four : Real.logb 2 4 = 2 := by
  have h4 : (4 : ℝ) = 2 ^ (2 : ℕ) := by norm_num
  rw [← Real.log_div_log, h4, Real.log_pow]
  have hlog2 : Real.log 2 ≠ 0 := ne_of_gt (Real.log_pos (by norm_num))
  field_simp

lemma logb_two_three_gt_one : 1 < Real.logb 2 3 := by
  have := Real.logb_lt_logb (b := 2) (x := 2) (y := 3) (by norm_num) (by norm_num) (by norm_num)
  rw [logb_two_two] at this
  exact this

lemma logb_two_three_lt_two : Real.logb 2 3 < 2 := by
  have := Real.logb_lt_logb (b := 2) (x := 3) (y := 4) (by norm_num) (by norm_num) (by norm_num)
  rw [logb_two_four] at this
  exact this

/-! ### Rearrangement-style bounds: the graded DCG over any injective
placement of the available relevance grades never exceeds the ideal DCG.
`L` abstracts `log2 3 ∈ (1, 2)`; positions carry discounts `1, 1/L, 1/2`. -/

lemma dcg3_bound_one (L : ℝ) (hL1 : 1 < L) (hL2 : L < 2) (r0 r1 r2 : ℕ)
    (h0 : r0 = 0 ∨ r0 = 3) (h1 : r1 = 0 ∨ r1 = 3) (h2 : r2 = 0 ∨ r2 = 3)
    (d01 : r0 ≠ 0 → r1 ≠ 0 → r0 ≠ r1) (d02 : r0 ≠ 0 → r2 ≠ 0 → r0 ≠ r2)
    (d12 : r1 ≠ 0 → r2 ≠ 0 → r1 ≠ r2) :
    ((2 : ℝ) ^ r0 - 1) / 1 + ((2 : ℝ) ^ r1 - 1) / L + ((2 : ℝ) ^ r2 - 1) / 2 ≤
      7 := by
  have hL0 : (0 : ℝ) < L := lt_trans one_pos hL1
  have hi1 : L⁻¹ < 1 := by
    rw [← one_div, div_lt_one hL0]
    exact hL1
  have hi2 : (2 : ℝ)⁻¹ < L⁻¹ := by
    rw [← one_div, ← one_div, div_lt_div_iff₀ (by norm_num) hL0]
    linarith
  rcases h0 with rfl | rfl <;> rcases h1 with rfl | rfl <;>
    rcases h2 with rfl | rfl <;>
    first
      | omega
      | (simp only [div_eq_mul_inv] <;> norm_num <;> linarith [hi1, hi2, hL0])

lemma dcg3_bound_two (L : ℝ) (hL1 : 1 < L) (hL2 : L < 2) (r0 r1 r2 : ℕ)
    (h0 : r0 = 0 ∨ r0 = 2 ∨ r0 = 3) (h1 : r1 = 0 ∨ r1 = 2 ∨ r1 = 3)
    (h2 : r2 = 0 ∨ r2 = 2 ∨ r2 = 3)
    (d01 : r0 ≠ 0 → r1 ≠ 0 → r0 ≠ r1) (d02 : r0 ≠ 0 → r2 ≠ 0 → r0 ≠ r2)
    (d12 : r1 ≠ 0 → r2 ≠ 0 → r1 ≠ r2) :
    ((2 : ℝ) ^ r0 - 1) / 1 + ((2 : ℝ) ^ r1 - 1) / L + ((2 : ℝ) ^ r2 - 1) / 2 ≤
      7 + 3 / L := by
  have hL0 : (0 : ℝ) < L := lt_trans one_pos hL1
  have hi1 : L⁻¹ < 1 := by
    rw [← one_div, div_lt_one hL0]
    exact hL1
  have hi2 : (2 : ℝ)⁻¹ < L⁻¹ := by
    rw [← one_div, ← one_div, div_lt_div_iff₀ (by norm_num) hL0]
    linarith
  rcases h0 with rfl | rfl | rfl <;> rcases h1 with rfl | rfl | rfl <;>
    rcases h2 with rfl | rfl | rfl <;>
    first
      | omega
      | (simp only [div_eq_mul_inv] <;> norm_num <;> linarith [hi1, hi2, hL0])

lemma dcg3_bound_three (L : ℝ) (hL1 : 1 < L) (hL2 : L < 2) (r0 r1 r2 : ℕ)
    (h0 : r0 = 0 ∨ r0 = 1 ∨ r0 = 3) (h1 : r1 = 0 ∨ r1 = 1 ∨ r1 = 3)
    (h2 : r2 = 0 ∨ r2 = 1 ∨ r2 = 3)
    (d01 : r0 ≠ 0 → r1 ≠ 0 → r0 ≠ r1) (d02 : r0 ≠ 0 → r2 ≠ 0 → r0 ≠ r2)
    (d12 : r1 ≠ 0 → r2 ≠ 0 → r1 ≠ r2) :
    ((2 : ℝ) ^ r0 - 1) / 1 + ((2 : ℝ) ^ r1 - 1) / L + ((2 : ℝ) ^ r2 - 1) / 2 ≤
      7 + 1 / L := by
  have hL0 : (0 : ℝ) < L := lt_trans one_pos hL1
  have hi1 : L⁻¹ < 1 := by
    rw [← one_div, div_lt_one hL0]
    exact hL1
  have hi2 : (2 : ℝ)⁻¹ < L⁻¹ := by
    rw [← one_div, ← one_div, div_lt_div_iff₀ (by norm_num) hL0]
    linarith
  rcases h0 with rfl | rfl | rfl <;> rcases h1 with rfl | rfl | rfl <;>
    rcases h2 with rfl | rfl | rfl <;>
    first
      | omega
      | (simp only [div_eq_mul_inv] <;> norm_num <;> linarith [hi1, hi2, hL0])

lemma dcg3_bound_four (L : ℝ) (hL1 : 1 < L) (hL2 : L < 2) (r0 r1 r2 : ℕ)
    (h0 : r0 ≤ 3) (h1 : r1 ≤ 3) (h2 : r2 ≤ 3)
    (d01 : r0 ≠ 0 → r1 ≠ 0 → r0 ≠ r1) (d02 : r0 ≠ 0 → r2 ≠ 0 → r0 ≠ r2)
    (d12 : r1 ≠ 0 → r2 ≠ 0 → r1 ≠ r2) :
    ((2 : ℝ) ^ r0 - 1) / 1 + ((2 : ℝ) ^ r1 - 1) / L + ((2 : ℝ) ^ r2 - 1) / 2 ≤
      7 + 3 / L + 1 / 2 := by
  have hL0 : (0 : ℝ) < L := lt_trans one_pos hL1
  have hi1 : L⁻¹ < 1 := by
    rw [← one_div, div_lt_one hL0]
    exact hL1
  have hi2 : (2 : ℝ)⁻¹ < L⁻¹ := by
    rw [← one_div, ← one_div, div_lt_div_iff₀ (by norm_num) hL0]
    linarith
  have e0 : r0 = 0 ∨ r0 = 1 ∨ r0 = 2 ∨ r0 = 3 := by omega
  have e1 : r1 = 0 ∨ r1 = 1 ∨ r1 = 2 ∨ r1 = 3 := by omega
  have e2 : r2 = 0 ∨ r2 = 1 ∨ r2 = 2 ∨ r2 = 3 := by omega
  rcases e0 with rfl | rfl | rfl | rfl <;> rcases e1 with rfl | rfl | rfl | rfl <;>
    rcases e2 with rfl | rfl | rfl | rfl <;>
    first
      | omega
      | (simp only [div_eq_mul_inv] <;> norm_num <;> linarith [hi1, hi2, hL0])

lemma dcg_term_nonneg (r j : ℕ) :
    0 ≤ ((2 : ℝ) ^ r - 1) / Real.logb 2 (↑j + 2) :=
  div_nonneg (sub_nonneg.mpr (one_le_pow₀ (by norm_num)))
    (le_of_lt (logb_two_succ_succ_pos j))

lemma ndcg3_nonneg (pred gt : List ℕ) : 0 ≤ _ndcg_at_3 pred gt := by
  unfold _ndcg_at_3
  dsimp only
  split_ifs with h
  · exact le_refl 0
  · apply div_nonneg
    · exact Finset.sum_nonneg (fun j _ => dcg_term_nonneg _ j)
    · exact Finset.sum_nonneg (fun j _ => dcg_term_nonneg _ j)

lemma ndcg3_le_one (pred gt : List ℕ) (hlen : pred.length = 3)
    (hnd : pred.Nodup) : _ndcg_at_3 pred gt ≤ 1 := by
  obtain ⟨p0, p1, p2, rfl⟩ := List.length_eq_three.mp hlen
  have h01 : p0 ≠ p1 := by simp at hnd; tauto
  have h02 : p0 ≠ p2 := by simp at hnd; tauto
  have h12 : p1 ≠ p2 := by simp at hnd; tauto
  have hL1 := logb_two_three_gt_one
  have hL2 := logb_two_three_lt_two
  have hL0 : (0 : ℝ) < Real.logb 2 3 := lt_trans one_pos hL1
  have d01 : relOf gt p0 ≠ 0 → relOf gt p1 ≠ 0 → relOf gt p0 ≠ relOf gt p1 :=
    fun hx hy => relOf_inj gt p0 p1 hx hy h01
  have d02 : relOf gt p0 ≠ 0 → relOf gt p2 ≠ 0 → relOf gt p0 ≠ relOf gt p2 :=
    fun hx hy => relOf_inj gt p0 p2 hx hy h02
  have d12 : relOf gt p1 ≠ 0 → relOf gt p2 ≠ 0 → relOf gt p1 ≠ relOf gt p2 :=
    fun hx hy => relOf_inj gt p1 p2 hx hy h12
  have hval : ∀ x : ℕ, relOf gt x = 0 ∨ relOf gt x ∈ idealRels gt := by
    intro x
    by_cases hx : relOf gt x = 0
    · exact Or.inl hx
    · exact Or.inr (by rw [idealRels_eq_vals]; exact relOf_mem_vals gt x hx)
  unfold _ndcg_at_3
  dsimp only
  by_cases hgt : gt = []
  · subst hgt
    have hnil : idealRels [] = [] := rfl
    rw [hnil]
    norm_num
  · have hdcg : ∑ j ∈ Finset.range 3,
        ((2 : ℝ) ^ relOf gt (([p0, p1, p2] : List ℕ).getD j 0) - 1) /
          Real.logb 2 (↑j + 2) =
        ((2 : ℝ) ^ relOf gt p0 - 1) / 1 +
          ((2 : ℝ) ^ relOf gt p1 - 1) / Real.logb 2 3 +
          ((2 : ℝ) ^ relOf gt p2 - 1) / 2 := by
      rw [Finset.sum_range_succ, Finset.sum_range_succ, Finset.sum_range_one]
      norm_num [List.getD, logb_two_two, logb_two_four]
    rcases idealRels_shape gt hgt with h | h | h | h <;> rw [h] at hval ⊢
    · have h0 : relOf gt p0 = 0 ∨ relOf gt p0 = 3 := by
        rcases hval p0 with hx | hx
        · omega
        · simp at hx; omega
      have h1 : relOf gt p1 = 0 ∨ relOf gt p1 = 3 := by
        rcases hval p1 with hx | hx
        · omega
        · simp at hx; omega
      have h2 : relOf gt p2 = 0 ∨ relOf gt p2 = 3 := by
        rcases hval p2 with hx | hx
        · omega
        · simp at hx; omega
      rw [if_neg (by norm_num)]
      have hidcg : ∑ j ∈ Finset.range (min 3 ([3] : List ℕ).length),
          ((2 : ℝ) ^ (([3] : List ℕ).getD j 0) - 1) / Real.logb 2 (↑j + 2)
          = 7 := by
        norm_num [Finset.sum_range_one, List.getD, logb_two_two]
      rw [hidcg, div_le_one (by norm_num), hdcg]
      exact dcg3_bound_one (Real.logb 2 3) hL1 hL2 _ _ _ h0 h1 h2 d01 d02 d12
    · have h0 : relOf gt p0 = 0 ∨ relOf gt p0 = 2 ∨ relOf gt p0 = 3 := by
        rcases hval p0 with hx | hx
        · omega
        · simp at hx; omega
      have h1 : relOf gt p1 = 0 ∨ relOf gt p1 = 2 ∨ relOf gt p1 = 3 := by
        rcases hval p1 with hx | hx
        · omega
        · simp at hx; omega
      have h2 : relOf gt p2 = 0 ∨ relOf gt p2 = 2 ∨ relOf gt p2 = 3 := by
        rcases hval p2 with hx | hx
        · omega
        · simp at hx; omega
      rw [if_neg (by norm_num)]
      have hidcg : ∑ j ∈ Finset.range (min 3 ([3, 2] : List ℕ).length),
          ((2 : ℝ) ^ (([3, 2] : List ℕ).getD j 0) - 1) / Real.logb 2 (↑j + 2)
          = 7 + 3 / Real.logb 2 3 := by
        rw [show min 3 ([3, 2] : List ℕ).length = 2 from rfl]
        rw [Finset.sum_range_succ, Finset.sum_range_one]
        norm_num [List.getD, logb_two_two]
      have hpos : (0 : ℝ) < 7 + 3 / Real.logb 2 3 := by
        have : (0 : ℝ) < 3 / Real.logb 2 3 := div_pos (by norm_num) hL0
        linarith
      rw [hidcg, div_le_one hpos, hdcg]
      exact dcg3_bound_two (Real.logb 2 3) hL1 hL2 _ _ _ h0 h1 h2 d01 d02 d12
    · have h0 : relOf gt p0 = 0 ∨ relOf gt p0 = 1 ∨ relOf gt p0 = 3 := by
        rcases hval p0 with hx | hx
        · omega
        · simp at hx; omega
      have h1 : relOf gt p1 = 0 ∨ relOf gt p1 = 1 ∨ relOf gt p1 = 3 := by
        rcases hval p1 with hx | hx
        · omega
        · simp at hx; omega
      have h2 : relOf gt p2 = 0 ∨ relOf gt p2 = 1 ∨ relOf gt p2 = 3 := by
        rcases hval p2 with hx | hx
        · omega
        · simp at hx; omega
      rw [if_neg (by norm_num)]
      have hidcg : ∑ j ∈ Finset.range (min 3 ([3, 1] : List ℕ).length),
          ((2 : ℝ) ^ (([3, 1] : List ℕ).getD j 0) - 1) / Real.logb 2 (↑j + 2)
          = 7 + 1 / Real.logb 2 3 := by
        rw [show min 3 ([3, 1] : List ℕ).length = 2 from rfl]
        rw [Finset.sum_range_succ, Finset.sum_range_one]
        norm_num [List.getD, logb_two_two]
      have hpos : (0 : ℝ) < 7 + 1 / Real.logb 2 3 := by
        have : (0 : ℝ) < 1 / Real.logb 2 3 := div_pos (by norm_num) hL0
        linarith
      rw [hidcg, div_le_one hpos, hdcg]
      exact dcg3_bound_three (Real.logb 2 3) hL1 hL2 _ _ _ h0 h1 h2 d01 d02 d12
    · have h0 : relOf gt p0 ≤ 3 := relOf_le_three gt p0
      have h1 : relOf gt p1 ≤ 3 := relOf_le_three gt p1
      have h2 : relOf gt p2 ≤ 3 := relOf_le_three gt p2
      rw [if_neg (by norm_num)]
      have hidcg : ∑ j ∈ Finset.range (min 3 ([3, 2, 1] : List ℕ).length),
          ((2 : ℝ) ^ (([3, 2, 1] : List ℕ).getD j 0) - 1) / Real.logb 2 (↑j + 2)
          = 7 + 3 / Real.logb 2 3 + 1 / 2 := by
        rw [show min 3 ([3, 2, 1] : List ℕ).length = 3 from rfl]
        rw [Finset.sum_range_succ, Finset.sum_range_succ, Finset.sum_range_one]
        norm_num [List.getD, logb_two_two, logb_two_four]
      have hpos : (0 : ℝ) < 7 + 3 / Real.logb 2 3 + 1 / 2 := by
        have : (0 : ℝ) < 3 / Real.logb 2 3 := div_pos (by norm_num) hL0
        linarith
      rw [hidcg, div_le_one hpos, hdcg]
      exact dcg3_bound_four (Real.logb 2 3) hL1 hL2 _ _ _ h0 h1 h2 d01 d02 d12

lemma getD_mem_of_lt {l : List ℕ} {j : ℕ} (h : j < l.length) :
    l.getD j 0 ∈ l := by
  rw [List.getD_eq_getElem l 0 h]
  exact l.getElem_mem h

lemma relAssoc_of_take3 (gt : List ℕ) (g0 g1 g2 : ℕ)
    (hg : gt.take 3 = [g0, g1, g2])
    (h01 : g0 ≠ g1) (h02 : g0 ≠ g2) (h12 : g1 ≠ g2) :
    relAssoc gt = [(g0, 3), (g1, 2), (g2, 1)] := by
  unfold relAssoc
  rw [hg]
  have hb10 : (g1 == g0) = false := beq_eq_false_iff_ne.mpr (Ne.symm h01)
  have hb20 : (g2 == g0) = false := beq_eq_false_iff_ne.mpr (Ne.symm h02)
  have hb21 : (g2 == g1) = false := beq_eq_false_iff_ne.mpr (Ne.symm h12)
  simp [buildRelAux, List.lookup, hb10, hb20, hb21]

/-! ### C2 — graded nDCG@3 behaviour -/

/-- C2: with a non-empty GT and a 3-element duplicate-free prediction,
`_ndcg_at_3` returns 1.0 on the exact first-3-GT prediction, a value strictly
between 0 and 1 on the reversed prediction, and 0.0 when no predicted id
occurs among the first 3 GT ids. -/
theorem ndcg3_C2 (gt pred : List ℕ) (hgt : gt ≠ []) (hplen : pred.length = 3)
    (hpnd : pred.Nodup) :
    (3 ≤ gt.length → (gt.take 3).Nodup →
      (pred = gt.take 3 → _ndcg_at_3 pred gt = 1) ∧
      (pred = (gt.take 3).reverse →
        0 < _ndcg_at_3 pred gt ∧ _ndcg_at_3 pred gt < 1)) ∧
    ((∀ x ∈ pred, x ∉ gt.take 3) → _ndcg_at_3 pred gt = 0) := by
  have hL1 := logb_two_three_gt_one
  have hL0 : (0 : ℝ) < Real.logb 2 3 := lt_trans one_pos hL1
  have h3L : (0 : ℝ) < 3 / Real.logb 2 3 := div_pos (by norm_num) hL0
  constructor
  · intro hglen htnd
    have htlen : (gt.take 3).length = 3 := by
      rw [List.length_take]
      omega
    obtain ⟨g0, g1, g2, hg⟩ := List.length_eq_three.mp htlen
    rw [hg] at htnd
    have h01 : g0 ≠ g1 := by simp at htnd; tauto
    have h02 : g0 ≠ g2 := by simp at htnd; tauto
    have h12 : g1 ≠ g2 := by simp at htnd; tauto
    have hassoc := relAssoc_of_take3 gt g0 g1 g2 hg h01 h02 h12
    have hb10 : (g1 == g0) = false := beq_eq_false_iff_ne.mpr (Ne.symm h01)
    have hb20 : (g2 == g0) = false := beq_eq_false_iff_ne.mpr (Ne.symm h02)
    have hb21 : (g2 == g1) = false := beq_eq_false_iff_ne.mpr (Ne.symm h12)
    have hideal : idealRels gt = [3, 2, 1] := by
      rw [idealRels_eq_vals, hassoc]
      rfl
    have hr0 : relOf gt g0 = 3 := by
      unfold relOf
      rw [hassoc]
      simp [List.lookup]
    have hr1 : relOf gt g1 = 2 := by
      unfold relOf
      rw [hassoc]
      simp [List.lookup, hb10]
    have hr2 : relOf gt g2 = 1 := by
      unfold relOf
      rw [hassoc]
      simp [List.lookup, hb20, hb21]
    have hpos : (0 : ℝ) < 7 + 3 / Real.logb 2 3 + 1 / 2 := by linarith
    have hi : ∑ j ∈ Finset.range (min 3 ([3, 2, 1] : List ℕ).length),
        ((2 : ℝ) ^ (([3, 2, 1] : List ℕ).getD j 0) - 1) / Real.logb 2 (↑j + 2)
        = 7 + 3 / Real.logb 2 3 + 1 / 2 := by
      rw [show min 3 ([3, 2, 1] : List ℕ).length = 3 from rfl]
      rw [Finset.sum_range_succ, Finset.sum_range_succ, Finset.sum_range_one]
      norm_num [List.getD, logb_two_two, logb_two_four]
    constructor
    · intro hpe
      subst hpe
      rw [hg]
      unfold _ndcg_at_3
      dsimp only
      rw [hideal, if_neg (by norm_num)]
      have hd : ∑ j ∈ Finset.range 3,
          ((2 : ℝ) ^ relOf gt (([g0, g1, g2] : List ℕ).getD j 0) - 1) /
            Real.logb 2 (↑j + 2)
          = 7 + 3 / Real.logb 2 3 + 1 / 2 := by
        rw [Finset.sum_range_succ, Finset.sum_range_succ, Finset.sum_range_one]
        norm_num [List.getD, hr0, hr1, hr2, logb_two_two, logb_two_four]
      rw [hd, hi]
      exact div_self (ne_of_gt hpos)
    · intro hpe
      subst hpe
      have hrev : (gt.take 3).reverse = [g2, g1, g0] := by rw [hg]; rfl
      rw [hrev]
      unfold _ndcg_at_3
      dsimp only
      rw [hideal, if_neg (by norm_num)]
      have hd : ∑ j ∈ Finset.range 3,
          ((2 : ℝ) ^ relOf gt (([g2, g1, g0] : List ℕ).getD j 0) - 1) /
            Real.logb 2 (↑j + 2)
          = 9 / 2 + 3 / Real.logb 2 3 := by
        rw [Finset.sum_range_succ, Finset.sum_range_succ, Finset.sum_range_one]
        norm_num [List.getD, hr0, hr1, hr2, logb_two_two, logb_two_four]
        ring
      rw [hd, hi]
      constructor
      · exact div_pos (by linarith) hpos
      · rw [div_lt_one hpos]
        linarith
  · intro hnone
    have hzero : ∀ j, j < 3 → relOf gt (pred.getD j 0) = 0 := by
      intro j hj
      exact relOf_zero_of_not_mem gt _
        (hnone _ (getD_mem_of_lt (by omega)))
    unfold _ndcg_at_3
    dsimp only
    split_ifs with hm
    · rfl
    · have hd : ∑ j ∈ Finset.range 3,
          ((2 : ℝ) ^ relOf gt (pred.getD j 0) - 1) / Real.logb 2 (↑j + 2)
          = 0 := by
        rw [Finset.sum_range_succ, Finset.sum_range_succ, Finset.sum_range_one]
        rw [hzero 0 (by norm_num), hzero 1 (by norm_num), hzero 2 (by norm_num)]
        norm_num
      rw [hd, zero_div]

/-- C2 witness at GT `[5,9,2]`: exact prediction, reversed prediction and a
fully-disjoint prediction. -/
theorem ndcg3_C2_witness :
    _ndcg_at_3 [5, 9, 2] [5, 9, 2] = 1 ∧
    (0 < _ndcg_at_3 [2, 9, 5] [5, 9, 2] ∧ _ndcg_at_3 [2, 9, 5] [5, 9, 2] < 1) ∧
    _ndcg_at_3 [1, 3, 4] [5, 9, 2] = 0 :=
  ⟨((ndcg3_C2 [5, 9, 2] [5, 9, 2] (by decide) rfl (by decide)).1 (by norm_num)
      (by decide)).1 rfl,
    ((ndcg3_C2 [5, 9, 2] [2, 9, 5] (by decide) rfl (by decide)).1 (by norm_num)
      (by decide)).2 rfl,
    (ndcg3_C2 [5, 9, 2] [1, 3, 4] (by decide) rfl (by decide)).2 (by decide)⟩

/-! ### `reward_funcs_prompt1._ndcg3_score` and `prompt1_reward` -/

def W_NDCG : ℝ := 1.0

def W_FORMAT : ℝ := 0.1

/-- Python `_ndcg3_score(completions, assistant)`: per pair, 0.0 when the prediction
fails to parse or the GT id list is empty, else the graded nDCG@3. -/
noncomputable def _ndcg3_score (completions assistant : List (List Char)) :
    List ℝ :=
  (completions.zip assistant).map (fun cg =>
    match _parse_region_ids_any cg.1 with
    | none => 0
    | some pred_ids =>
        if _parse_gt_ids cg.2 = [] then 0
        else _ndcg_at_3 pred_ids (_parse_gt_ids cg.2))

/-- Python `prompt1_reward(completions, assistant) = [W_NDCG * n + W_FORMAT * f ...]`. -/
noncomputable def prompt1_reward (completions assistant : List (List Char)) :
    List ℝ :=
  ((_ndcg3_score completions assistant).zip
      (_strict_format_score completions)).map
    (fun nf => W_NDCG * nf.1 + W_FORMAT * nf.2)

lemma parse_some_props {t : List Char} {ids : List ℕ}
    (h : _parse_region_ids_any t = some ids) :
    ids.length = 3 ∧ ids.Nodup := by
  unfold _parse_region_ids_any at h
  dsimp only at h
  split_ifs at h with h1 h2 h3
  rw [Option.some.injEq] at h
  subst h
  have hlen : (findall_nats t).length = 3 := by omega
  have hdl : (findall_nats t).dedup.length = 3 := by omega
  exact ⟨hlen, (nodup_iff_dedup_length _).mp (hdl.trans hlen.symm)⟩

lemma ndcg3_score_mem_bounds (cs as : List (List Char)) :
    ∀ n ∈ _ndcg3_score cs as, 0 ≤ n ∧ n ≤ 1 := by
  intro n hn
  unfold _ndcg3_score at hn
  rw [List.mem_map] at hn
  obtain ⟨cg, -, rfl⟩ := hn
  cases hp : _parse_region_ids_any cg.1 with
  | none => norm_num
  | some ids =>
    dsimp only
    split_ifs with hg
    · norm_num
    · obtain ⟨hl3, hnd⟩ := parse_some_props hp
      exact ⟨ndcg3_nonneg _ _, ndcg3_le_one _ _ hl3 hnd⟩

lemma format_score_mem (cs : List (List Char)) :
    ∀ f ∈ _strict_format_score cs, f = 0 ∨ f = 1 := by
  intro f hf
  unfold _strict_format_score at hf
  rw [List.mem_map] at hf
  obtain ⟨c, -, rfl⟩ := hf
  split_ifs <;> simp

/-! ### C1 — the Prompt-1 combined reward -/

/-- C1: on equal-length inputs `prompt1_reward` is total, returns one value
per pair, the i-th value is `W_NDCG * ndcg3_i + W_FORMAT * format_i` with
`format_i ∈ {0, 1}`, `ndcg3_i = 0` whenever the prediction fails to parse or
the GT text yields no ids, and every returned value lies in `[0, 1.1]`. -/
theorem prompt1_C1 (cs as : List (List Char)) (h : cs.length = as.length) :
    (prompt1_reward cs as).length = cs.length ∧
    (∀ i, i < cs.length →
      (prompt1_reward cs as).getD i 0 =
        W_NDCG * (_ndcg3_score cs as).getD i 0 +
          W_FORMAT * (_strict_format_score cs).getD i 0) ∧
    (∀ i, i < cs.length →
      (_strict_format_score cs).getD i 0 = 0 ∨
        (_strict_format_score cs).getD i 0 = 1) ∧
    (∀ i, i < cs.length →
      (_parse_region_ids_any (cs.getD i []) = none ∨
        _parse_gt_ids (as.getD i []) = []) →
      (_ndcg3_score cs as).getD i 0 = 0) ∧
    (∀ x ∈ prompt1_reward cs as, 0 ≤ x ∧ x ≤ 1.1) := by
  have hlen_n : (_ndcg3_score cs as).length = cs.length := by
    unfold _ndcg3_score
    rw [List.length_map, List.length_zip, h, min_self]
  have hlen_f : (_strict_format_score cs).length = cs.length := by
    unfold _strict_format_score
    rw [List.length_map]
  have hlen_r : (prompt1_reward cs as).length = cs.length := by
    unfold prompt1_reward
    rw [List.length_map, List.length_zip, hlen_n, hlen_f, min_self]
  refine ⟨hlen_r, ?_, ?_, ?_, ?_⟩
  · intro i hi
    rw [List.getD_eq_getElem _ _ (by omega : i < (prompt1_reward cs as).length),
      List.getD_eq_getElem _ _ (by omega : i < (_ndcg3_score cs as).length),
      List.getD_eq_getElem _ _ (by omega : i < (_strict_format_score cs).length)]
    unfold prompt1_reward
    rw [List.getElem_map, List.getElem_zip]
  · intro i hi
    rw [List.getD_eq_getElem _ _ (by omega : i < (_strict_format_score cs).length)]
    exact format_score_mem cs _ (List.getElem_mem _)
  · intro i hi
    intro hcase
    rw [List.getD_eq_getElem _ _ (by omega : i < (_ndcg3_score cs as).length)]
    have hziplen : (cs.zip as).length = cs.length := by
      rw [List.length_zip, h, min_self]
    unfold _ndcg3_score
    rw [List.getElem_map, List.getElem_zip]
    rw [List.getD_eq_getElem _ _ hi] at hcase
    rw [List.getD_eq_getElem _ _ (by omega : i < as.length)] at hcase
    rcases hcase with hc | hc
    · rw [hc]
    · cases hp : _parse_region_ids_any cs[i] with
      | none => rfl
      | some ids =>
        dsimp only
        rw [if_pos hc]
  · intro x hx
    unfold prompt1_reward at hx
    rw [List.mem_map] at hx
    obtain ⟨nf, hmem, rfl⟩ := hx
    obtain ⟨hn, hf⟩ := List.of_mem_zip hmem
    obtain ⟨hn0, hn1⟩ := ndcg3_score_mem_bounds cs as _ hn
    rcases format_score_mem cs _ hf with hf0 | hf1
    · rw [hf0]
      unfold W_NDCG W_FORMAT
      constructor <;> norm_num <;> linarith
    · rw [hf1]
      unfold W_NDCG W_FORMAT
      constructor <;> norm_num <;> linarith

/-- C1 witness: a parseable and an unparseable completion. -/
theorem prompt1_C1_witness :
    (prompt1_reward ["[1, 2, 3]".toList, "oops".toList]
        ["[1, 2, 3]".toList, "[4, 5, 6]".toList]).length = 2 :=
  (prompt1_C1 ["[1, 2, 3]".toList, "oops".toList]
      ["[1, 2, 3]".toList, "[4, 5, 6]".toList] rfl).1

/-! ### `reward_funcs_prompt2` — normalizers

Python strings are `List Char`; `.strip()`, `.lower()` and
`re.sub(r"\s+", " ", ...)` are modelled character-wise (ASCII scope). -/

/-- Python `text.strip()`. -/
def pyStrip (s : List Char) : List Char :=
  ((s.dropWhile Char.isWhitespace).reverse.dropWhile Char.isWhitespace).reverse

/-- Python `text.lower()`. -/
def pyLower (s : List Char) : List Char :=
  s.map Char.toLower

/-- Python `re.sub(r"\s+", " ", text)`: each maximal whitespace run becomes one
space.  The boolean records whether the scanner is inside a run. -/
def collapseWSAux : Bool → List Char → List Char
  | _, [] => []
  | inRun, c :: rest =>
      if c.isWhitespace then
        if inRun then collapseWSAux true rest
        else ' ' :: collapseWSAux true rest
      else c :: collapseWSAux false rest

/-- Python `_normalize_space(text) = re.sub(r"\s+", " ", text.strip().lower())`. -/
def _normalize_space (s : List Char) : List Char :=
  collapseWSAux false (pyLower (pyStrip s))

def TIME_LABELS : List (List Char) :=
  ["speech".toList, "non-speech".toList]

def FREQ_LABELS : List (List Char) :=
  ["low".toList, "mid".toList, "high".toList]

def PHON_LABELS : List (List Char) :=
  ["consonant".toList, "vowel".toList, "unvoiced".toList]

def _normalize_time (value : List Char) : Option (List Char) :=
  let v := _normalize_space value
  if v ∈ TIME_LABELS then some v
  else if v = "nonspeech".toList ∨ v = "non speech".toList then
    some "non-speech".toList
  else none

def _normalize_freq (value : List Char) : Option (List Char) :=
  let v := _normalize_space value
  if v ∈ FREQ_LABELS then some v
  else if v = "middle".toList then some "mid".toList
  else none

def _normalize_phon (value : List Char) : Option (List Char) :=
  let v := _normalize_space value
  if v ∈ PHON_LABELS then some v
  else if v = "voiceless".toList then some "unvoiced".toList
  else none

/-! ### `_REGION_PATTERN` scanning.

`re.findall` over `\(\s*(\d+)\s*,\s*([^,]+?)\s*,\s*([^,]+?)\s*,\s*([^,]+?)\s*,\s*(.*?)\s*\)`
(DOTALL) is modelled by a deterministic scanner: at each `(` the pattern
matches iff, after optional whitespace, a digit run is followed (modulo
whitespace) by a comma, then three non-empty comma-terminated segments, then
any text up to a first `)`.  Lazy groups with the surrounding `\s*` capture
exactly the whitespace-stripped segment, which is what the normalizers and
the `En` non-emptiness check consume. -/

/-- A region tuple; used both for raw captures (fields as captured, already
stripped) and validated tuples (fields canonical).  `int(cn_raw)` is kept as
the numeral. -/
structure Region where
  cn : ℕ
  t : List Char
  f : List Char
  p : List Char
  en : List Char
deriving DecidableEq

/-- Python `int(...)` on a digit run. -/
def natOfDigits (ds : List Char) : ℕ :=
  ds.foldl (fun n c => n * 10 + (c.toNat - 48)) 0

/-- One `,`-terminated segment, as consumed by `\s*([^,]+?)\s*,`: fails when
no comma follows or the segment is empty. -/
def segUpToComma (s : List Char) : Option (List Char × List Char) :=
  let a := s.takeWhile (fun c => c ≠ ',')
  match s.dropWhile (fun c => c ≠ ',') with
  | ',' :: rest => if a.isEmpty then none else some (a, rest)
  | _ => none

/-- Try `_REGION_PATTERN` at the head of the text; on success return the
captured tuple (fields whitespace-stripped) and the remainder after the
closing parenthesis. -/
def matchTupleAt : List Char → Option (Region × List Char)
  | '(' :: r0 =>
    let r1 := r0.dropWhile Char.isWhitespace
    let ds := r1.takeWhile Char.isDigit
    if ds.isEmpty then none
    else
      match (r1.dropWhile Char.isDigit).dropWhile Char.isWhitespace with
      | ',' :: r3 =>
        match segUpToComma r3 with
        | none => none
        | some (s1, r4) =>
          match segUpToComma r4 with
          | none => none
          | some (s2, r5) =>
            match segUpToComma r5 with
            | none => none
            | some (s3, r6) =>
              match r6.dropWhile (fun c => c ≠ ')') with
              | ')' :: r7 =>
                  some (⟨natOfDigits ds, pyStrip s1, pyStrip s2, pyStrip s3,
                    pyStrip (r6.takeWhile (fun c => c ≠ ')'))⟩, r7)
              | _ => none
      | _ => none
  | _ => none

/-- Left-to-right non-overlapping scan (`findall`), fuelled by the input
length so that it stays structurally recursive. -/
def findTuplesFuel : ℕ → List Char → List Region
  | 0, _ => []
  | _ + 1, [] => []
  | fuel + 1, c :: rest =>
    match matchTupleAt (c :: rest) with
    | some (r, rem) => r :: findTuplesFuel fuel rem
    | none => findTuplesFuel fuel rest

def findTuples (s : List Char) : List Region :=
  findTuplesFuel s.length s

/-- The validation loop of `_parse_region_tuples`: positive, unseen `Cn`,
normalizable categorical fields, non-empty stripped `En`. -/
def validateTuples : List Region → List ℕ → Option (List Region)
  | [], _ => some []
  | r :: rest, seen =>
      if r.cn = 0 then none
      else if r.cn ∈ seen then none
      else
        match _normalize_time r.t, _normalize_freq r.f, _normalize_phon r.p with
        | some t, some f, some p =>
            if r.en.isEmpty then none
            else (validateTuples rest (r.cn :: seen)).map
              (fun tail => ⟨r.cn, t, f, p, r.en⟩ :: tail)
        | _, _, _ => none

/-- Python `_parse_region_tuples(text)`: exactly 3 pattern matches, all valid, else
`None`. -/
def _parse_region_tuples (text : List Char) : Option (List Region) :=
  let ms := findTuples text
  if ms.length ≠ 3 then none
  else validateTuples ms []

/-! ### Lexicon re-extraction from `En`

Each regex pattern (`\bword\b`, with an optional `[- ]?` separator) is
modelled as its list of literal alternatives plus word-boundary checks; the
match count of `re.finditer` equals the number of starting positions at which
an alternative matches (these word patterns cannot overlap themselves). -/

/-- Python `\w` for the word-boundary `\b`. -/
def isWordChar (c : Char) : Bool :=
  c.isAlphanum || c = '_'

/-- Does one pattern (list of literal alternatives) match at position `i`
with `\b` on both sides? -/
def patMatchesAt (alts : List (List Char)) (text : List Char) (i : ℕ) : Bool :=
  alts.any (fun a =>
    a.isPrefixOf (text.drop i) &&
    (decide (i = 0) || !isWordChar (text.getD (i - 1) ' ')) &&
    !isWordChar (text.getD (i + a.length) ' '))

/-- Python `len(list(re.finditer(pat, text)))`. -/
def patCount (alts : List (List Char)) (text : List Char) : ℕ :=
  (List.range text.length).countP (fun i => patMatchesAt alts text i)

/-- Python `matches[0].start()`. -/
def patFirstPos (alts : List (List Char)) (text : List Char) : Option ℕ :=
  (List.range text.length).find? (fun i => patMatchesAt alts text i)

def TIME_LEXICON : List (List Char × List (List (List Char))) :=
  [("speech".toList,
      [["speech".toList], ["voiced".toList], ["spoken".toList]]),
   ("non-speech".toList,
      [["silence".toList], ["pause".toList],
       ["nonspeech".toList, "non-speech".toList, "non speech".toList],
       ["background".toList],
       ["noiseonly".toList, "noise-only".toList, "noise only".toList],
       ["unvoiced".toList]])]

def FREQ_LEXICON : List (List Char × List (List (List Char))) :=
  [("low".toList, [["low".toList]]),
   ("mid".toList, [["mid".toList], ["middle".toList]]),
   ("high".toList, [["high".toList]])]

def PHON_LEXICON : List (List Char × List (List (List Char))) :=
  [("vowel".toList, [["vowel".toList], ["formant".toList]]),
   ("consonant".toList,
      [["consonant".toList], ["stop".toList], ["fricative".toList]]),
   ("unvoiced".toList,
      [["unvoiced".toList], ["voiceless".toList], ["aspiration".toList],
       ["burst".toList]])]

/-- The inner per-label loop of `_extract_label_by_lexicon`: total match
count over the label's patterns and the earliest first-match position. -/
def labelCountAndPos (pats : List (List (List Char))) (text : List Char) :
    ℕ × ℕ :=
  pats.foldl (fun acc pat =>
    let c := patCount pat text
    if c = 0 then acc
    else (acc.1 + c, min acc.2 ((patFirstPos pat text).getD (10 ^ 9))))
    (0, 10 ^ 9)

/-- Python `_extract_label_by_lexicon(en_text, lexicon)`: most mentions win,
count ties broken by earliest first mention, zero-match labels never
selected. -/
def _extract_label_by_lexicon (en_text : List Char)
    (lexicon : List (List Char × List (List (List Char)))) :
    Option (List Char) :=
  (lexicon.foldl (fun best lp =>
    let cp := labelCountAndPos lp.2 (pyLower en_text)
    if cp.1 > best.2.1 ∨ (cp.1 = best.2.1 ∧ cp.1 > 0 ∧ cp.2 < best.2.2) then
      (some lp.1, cp.1, cp.2)
    else best) ((none : Option (List Char)), 0, 10 ^ 9)).1

/-- Python `_independent_extract_from_en(en_text)` as a `(T, F, P)` triple. -/
def _independent_extract_from_en (en_text : List Char) :
    Option (List Char) × Option (List Char) × Option (List Char) :=
  (_extract_label_by_lexicon en_text TIME_LEXICON,
   _extract_label_by_lexicon en_text FREQ_LEXICON,
   _extract_label_by_lexicon en_text PHON_LEXICON)

/-! ### Prompt-2 reward -/

def W_ACC : ℚ := 0.75

def W_CONS : ℚ := 0.25

def W_FMT : ℚ := 0.1

/-- Python `_region_field_accuracy(pred, gt)`: macro-average of the three binary
field indicators; 0 when the GT region is missing. -/
def _region_field_accuracy (pred : Region) (gt : Option Region) : ℚ :=
  match gt with
  | none => 0
  | some g =>
      ((if pred.t = g.t then (1 : ℚ) else 0) +
        (if pred.f = g.f then (1 : ℚ) else 0) +
        (if pred.p = g.p then (1 : ℚ) else 0)) / 3

/-- Python `_region_consistency(pred)`: fields vs lexicon-extraction from the
region's own `En`. -/
def _region_consistency (pred : Region) : ℚ :=
  ((if (_independent_extract_from_en pred.en).1 = some pred.t then (1 : ℚ)
      else 0) +
    (if (_independent_extract_from_en pred.en).2.1 = some pred.f then (1 : ℚ)
      else 0) +
    (if (_independent_extract_from_en pred.en).2.2 = some pred.p then (1 : ℚ)
      else 0)) / 3

/-- Python `_format_score(text)`. -/
def _format_score (text : List Char) : ℚ :=
  if (_parse_region_tuples text).isSome then 1 else 0

/-- Python `{r["Cn"]: r for r in gt_regions}.get(cn)`. -/
def gtByCn (grs : List Region) (cn : ℕ) : Option Region :=
  (grs.map (fun r => (r.cn, r))).lookup cn

/-- The loop body of `prompt2_reward` for one `(completion, gt)` pair. -/
def pairReward2 (completion gt_text : List Char) : ℚ :=
  match _parse_region_tuples completion with
  | none => 0
  | some pred_regions =>
      match _parse_region_tuples gt_text with
      | none => 0
      | some gt_regions =>
          ((pred_regions.map (fun pred =>
            W_ACC * _region_field_accuracy pred (gtByCn gt_regions pred.cn) +
              W_CONS * _region_consistency pred +
              W_FMT * _format_score completion)).sum) / 3

/-- Python `prompt2_reward(completions, assistant)`. -/
def prompt2_reward (completions assistant : List (List Char)) : List ℚ :=
  (completions.zip assistant).map (fun cg => pairReward2 cg.1 cg.2)

/-! ### C4 — all-or-nothing tuple validation -/

lemma validateTuples_isSome_iff (rs : List Region) (seen : List ℕ) :
    (validateTuples rs seen).isSome ↔
      ((∀ r ∈ rs, 1 ≤ r.cn ∧ r.cn ∉ seen ∧
          (_normalize_time r.t).isSome ∧ (_normalize_freq r.f).isSome ∧
          (_normalize_phon r.p).isSome ∧ r.en ≠ []) ∧
        (rs.map Region.cn).Nodup) := by
  induction rs generalizing seen with
  | nil => simp [validateTuples]
  | cons r rest ih =>
    simp only [validateTuples]
    by_cases hcn : r.cn = 0
    · rw [if_pos hcn]
      simp only [Option.isSome_none, Bool.false_eq_true, false_iff]
      intro h
      have := (h.1 r (List.mem_cons_self r rest)).1
      omega
    · rw [if_neg hcn]
      by_cases hseen : r.cn ∈ seen
      · rw [if_pos hseen]
        simp only [Option.isSome_none, Bool.false_eq_true, false_iff]
        intro h
        exact (h.1 r (List.mem_cons_self r rest)).2.1 hseen
      · rw [if_neg hseen]
        cases ht : _normalize_time r.t with
        | none =>
          simp only [Option.isSome_none, Bool.false_eq_true, false_iff]
          intro h
          have := (h.1 r (List.mem_cons_self r rest)).2.2.1
          rw [ht] at this
          simp at this
        | some tv =>
          cases hf : _normalize_freq r.f with
          | none =>
            simp only [Option.isSome_none, Bool.false_eq_true, false_iff]
            intro h
            have := (h.1 r (List.mem_cons_self r rest)).2.2.2.1
            rw [hf] at this
            simp at this
          | some fv =>
            cases hp : _normalize_phon r.p with
            | none =>
              simp only [Option.isSome_none, Bool.false_eq_true, false_iff]
              intro h
              have := (h.1 r (List.mem_cons_self r rest)).2.2.2.2.1
              rw [hp] at this
              simp at this
            | some pv =>
              dsimp only
              by_cases hen : r.en.isEmpty
              · rw [if_pos hen]
                simp only [Option.isSome_none, Bool.false_eq_true, false_iff]
                intro h
                exact (h.1 r (List.mem_cons_self r rest)).2.2.2.2.2
                  (List.isEmpty_iff.mp hen)
              · rw [if_neg hen]
                have hmap : ∀ (o : Option (List Region))
                    (f : List Region → List Region),
                    (o.map f).isSome = o.isSome := by
                  intro o f
                  cases o <;> rfl
                rw [hmap, ih (r.cn :: seen)]
                constructor
                · rintro ⟨hall, hnd⟩
                  refine ⟨?_, ?_⟩
                  · intro x hx
                    rcases List.mem_cons.mp hx with rfl | hx'
                    · exact ⟨by omega, hseen, by rw [ht]; rfl, by rw [hf]; rfl,
                        by rw [hp]; rfl,
                        fun he => hen (by rw [he]; rfl)⟩
                    · obtain ⟨h1, h2, h3, h4, h5, h6⟩ := hall x hx'
                      exact ⟨h1, fun hm => h2 (List.mem_cons_of_mem _ hm), h3,
                        h4, h5, h6⟩
                  · rw [List.map_cons, List.nodup_cons]
                    refine ⟨?_, hnd⟩
                    intro hmem
                    rw [List.mem_map] at hmem
                    obtain ⟨x, hx, hcx⟩ := hmem
                    exact (hall x hx).2.1
                      (by rw [hcx]; exact List.mem_cons_self _ _)
                · rintro ⟨hall, hnd⟩
                  rw [List.map_cons, List.nodup_cons] at hnd
                  refine ⟨?_, hnd.2⟩
                  intro x hx
                  obtain ⟨h1, h2, h3, h4, h5, h6⟩ :=
                    hall x (List.mem_cons_of_mem _ hx)
                  refine ⟨h1, ?_, h3, h4, h5, h6⟩
                  intro hm
                  rcases List.mem_cons.mp hm with heq | hm'
                  · exact hnd.1 (by rw [← heq]; exact List.mem_map_of_mem _ hx)
                  · exact h2 hm'

/-- C4: `_parse_region_tuples` succeeds iff the text contains exactly 3
pattern matches whose `Cn` are positive and pairwise distinct, whose
categorical fields all normalize, and whose stripped `En` is non-empty; any
violation makes the whole parse `None`. -/
theorem parse_tuples_C4 (text : List Char) :
    (_parse_region_tuples text).isSome ↔
      ((findTuples text).length = 3 ∧
        (∀ r ∈ findTuples text, 1 ≤ r.cn) ∧
        ((findTuples text).map Region.cn).Nodup ∧
        (∀ r ∈ findTuples text,
          (_normalize_time r.t).isSome ∧ (_normalize_freq r.f).isSome ∧
            (_normalize_phon r.p).isSome) ∧
        (∀ r ∈ findTuples text, r.en ≠ [])) := by
  unfold _parse_region_tuples
  dsimp only
  split_ifs with hlen
  · simp only [Option.isSome_none, Bool.false_eq_true, false_iff]
    intro h
    exact hlen h.1
  · rw [validateTuples_isSome_iff]
    constructor
    · rintro ⟨hall, hnd⟩
      refine ⟨by omega, fun r hr => (hall r hr).1, hnd,
        fun r hr => ⟨(hall r hr).2.2.1, (hall r hr).2.2.2.1,
          (hall r hr).2.2.2.2.1⟩,
        fun r hr => (hall r hr).2.2.2.2.2⟩
    · rintro ⟨-, hpos, hnd, hnorm, hen⟩
      refine ⟨fun r hr => ⟨hpos r hr, by simp, (hnorm r hr).1,
        (hnorm r hr).2.1, (hnorm r hr).2.2, hen r hr⟩, hnd⟩

/-- C4 witness: a concrete well-formed 3-tuple completion parses, and the
same completion with a repeated `Cn` does not. -/
theorem parse_tuples_C4_witness :
    (_parse_region_tuples
      "(1, speech, low, vowel, a)(2, non-speech, mid, consonant, b)(3, speech, high, unvoiced, c)".toList).isSome := by
  exact (parse_tuples_C4 _).mpr (by decide)

lemma validateTuples_length {rs : List Region} {seen : List ℕ}
    {out : List Region} (h : validateTuples rs seen = some out) :
    out.length = rs.length := by
  induction rs generalizing seen out with
  | nil =>
    simp [validateTuples] at h
    subst h
    rfl
  | cons r rest ih =>
    simp only [validateTuples] at h
    by_cases hcn : r.cn = 0
    · rw [if_pos hcn] at h
      simp at h
    rw [if_neg hcn] at h
    by_cases hseen : r.cn ∈ seen
    · rw [if_pos hseen] at h
      simp at h
    rw [if_neg hseen] at h
    cases ht : _normalize_time r.t with
    | none => rw [ht] at h; simp at h
    | some tv =>
      cases hf : _normalize_freq r.f with
      | none => rw [ht, hf] at h; simp at h
      | some fv =>
        cases hp : _normalize_phon r.p with
        | none => rw [ht, hf, hp] at h; simp at h
        | some pv =>
          rw [ht, hf, hp] at h
          dsimp only at h
          by_cases hen : r.en.isEmpty
          · rw [if_pos hen] at h
            simp at h
          · rw [if_neg hen] at h
            cases hv : validateTuples rest (r.cn :: seen) with
            | none => rw [hv] at h; simp at h
            | some tail =>
              rw [hv] at h
              simp only [Option.map_some', Option.some.injEq] at h
              subst h
              simp [ih hv]

lemma parse2_some_length {t : List Char} {rs : List Region}
    (h : _parse_region_tuples t = some rs) : rs.length = 3 := by
  unfold _parse_region_tuples at h
  dsimp only at h
  split_ifs at h with hlen
  exact (validateTuples_length h).trans (by omega)

lemma region_field_accuracy_nonneg (pred : Region) (gt : Option Region) :
    0 ≤ _region_field_accuracy pred gt := by
  unfold _region_field_accuracy
  cases gt with
  | none => exact le_refl 0
  | some g =>
    dsimp only
    split_ifs <;> norm_num

lemma region_consistency_nonneg (pred : Region) :
    0 ≤ _region_consistency pred := by
  unfold _region_consistency
  split_ifs <;> norm_num

/-! ### C3 — the Prompt-2 combined reward -/

/-- C3: `prompt2_reward` is per-pair; a pair yields 0.0 as soon as either
side fails to parse, and when both parse the reward is the average over the 3
predicted regions of `W_ACC * accuracy + W_CONS * consistency +
W_FMT * format` with format 1.0, a GT-missing region contributing accuracy
0. -/
theorem prompt2_C3 (cs as : List (List Char)) :
    prompt2_reward cs as = (cs.zip as).map (fun cg => pairReward2 cg.1 cg.2) ∧
    (∀ c g : List Char,
      ((_parse_region_tuples c = none ∨ _parse_region_tuples g = none) →
        pairReward2 c g = 0) ∧
      (∀ pr gr, _parse_region_tuples c = some pr →
        _parse_region_tuples g = some gr →
        pr.length = 3 ∧ _format_score c = 1 ∧
        pairReward2 c g =
          ((pr.map (fun pred =>
            W_ACC * _region_field_accuracy pred (gtByCn gr pred.cn) +
              W_CONS * _region_consistency pred +
              W_FMT * _format_score c)).sum) / 3 ∧
        (∀ pred ∈ pr, gtByCn gr pred.cn = none →
          _region_field_accuracy pred (gtByCn gr pred.cn) = 0))) := by
  refine ⟨rfl, ?_⟩
  intro c g
  constructor
  · intro hcase
    unfold pairReward2
    rcases hcase with hc | hg
    · rw [hc]
    · cases hc : _parse_region_tuples c with
      | none => rfl
      | some pr => rw [hg]
  · intro pr gr hc hg
    refine ⟨parse2_some_length hc, ?_, ?_, ?_⟩
    · unfold _format_score
      rw [if_pos (by rw [hc]; rfl)]
    · unfold pairReward2
      rw [hc, hg]
    · intro pred hpred hnone
      rw [hnone]
      rfl

/-- C3 witness: a malformed completion against a malformed GT scores 0. -/
theorem prompt2_C3_witness : pairReward2 "oops".toList "also bad".toList = 0 :=
  ((prompt2_C3 [] []).2 "oops".toList "also bad".toList).1
    (Or.inl (by decide))

/-! ### C10 — no Prompt-2 reward strictly between 0 and 0.1 -/

/-- C10: every value of `prompt2_reward` is exactly 0 or at least 0.1: when
both sides parse, the additive format term alone contributes 0.1 per
region. -/
theorem prompt2_C10 (cs as : List (List Char)) (x : ℚ)
    (hx : x ∈ prompt2_reward cs as) : x = 0 ∨ (0.1 : ℚ) ≤ x := by
  unfold prompt2_reward at hx
  rw [List.mem_map] at hx
  obtain ⟨cg, -, rfl⟩ := hx
  unfold pairReward2
  cases hc : _parse_region_tuples cg.1 with
  | none => exact Or.inl rfl
  | some pr =>
    cases hg : _parse_region_tuples cg.2 with
    | none => exact Or.inl rfl
    | some gr =>
      right
      have hfmt : _format_score cg.1 = 1 := by
        unfold _format_score
        rw [if_pos (by rw [hc]; rfl)]
      have hterm : ∀ y ∈ pr.map (fun pred =>
          W_ACC * _region_field_accuracy pred (gtByCn gr pred.cn) +
            W_CONS * _region_consistency pred +
            W_FMT * _format_score cg.1), (0.1 : ℚ) ≤ y := by
        intro y hy
        rw [List.mem_map] at hy
        obtain ⟨pred, -, rfl⟩ := hy
        have h1 : 0 ≤ W_ACC * _region_field_accuracy pred (gtByCn gr pred.cn) :=
          mul_nonneg (by norm_num [W_ACC]) (region_field_accuracy_nonneg _ _)
        have h2 : 0 ≤ W_CONS * _region_consistency pred :=
          mul_nonneg (by norm_num [W_CONS]) (region_consistency_nonneg _)
        rw [hfmt]
        unfold W_FMT
        linarith
      have hlen : (pr.map (fun pred =>
          W_ACC * _region_field_accuracy pred (gtByCn gr pred.cn) +
            W_CONS * _region_consistency pred +
            W_FMT * _format_score cg.1)).length = 3 := by
        rw [List.length_map, parse2_some_length hc]
      have hsum := List.card_nsmul_le_sum _ _ hterm
      rw [hlen] at hsum
      have hsum' : (3 : ℚ) * (0.1 : ℚ) ≤ (pr.map (fun pred =>
          W_ACC * _region_field_accuracy pred (gtByCn gr pred.cn) +
            W_CONS * _region_consistency pred +
            W_FMT * _format_score cg.1)).sum := by
        have : ((3 : ℕ) : ℚ) * (0.1 : ℚ) = (3 : ℕ) • (0.1 : ℚ) := by
          rw [nsmul_eq_mul]
        linarith [hsum, this.ge.trans_eq rfl]
      linarith

/-- C10 witness at a parse-failing pair, whose reward is exactly 0. -/
theorem prompt2_C10_witness : (0 : ℚ) = 0 ∨ (0.1 : ℚ) ≤ 0 :=
  prompt2_C10 ["a".toList] ["b".toList] 0 (by decide)

/-! ### C8 — normalizer synonym folding and idempotence -/

/-- C8: the three normalizers fold case/whitespace variants onto the closed
vocabularies (`"Non Speech"`, `"non-speech"`, `"NONSPEECH"` all map to
`non-speech`; `middle ↦ mid`; `voiceless ↦ unvoiced`) and each normalizer is
idempotent on its own output. -/
theorem normalize_C8 :
    _normalize_time "Non Speech".toList = some "non-speech".toList ∧
    _normalize_time "non-speech".toList = some "non-speech".toList ∧
    _normalize_time "NONSPEECH".toList = some "non-speech".toList ∧
    _normalize_freq "middle".toList = some "mid".toList ∧
    _normalize_phon "voiceless".toList = some "unvoiced".toList ∧
    (∀ s v, _normalize_time s = some v → _normalize_time v = some v) ∧
    (∀ s v, _normalize_freq s = some v → _normalize_freq v = some v) ∧
    (∀ s v, _normalize_phon s = some v → _normalize_phon v = some v) := by
  refine ⟨by decide, by decide, by decide, by decide, by decide, ?_, ?_, ?_⟩
  · intro s v h
    unfold _normalize_time at h
    dsimp only at h
    split_ifs at h with h1 h2
    · rw [Option.some.injEq] at h
      subst h
      rcases (show _normalize_space s = "speech".toList ∨
          _normalize_space s = "non-speech".toList by
        simpa [TIME_LABELS] using h1) with hv | hv <;> rw [hv] <;> decide
    · rw [Option.some.injEq] at h
      subst h
      decide
  · intro s v h
    unfold _normalize_freq at h
    dsimp only at h
    split_ifs at h with h1 h2
    · rw [Option.some.injEq] at h
      subst h
      rcases (show _normalize_space s = "low".toList ∨
          _normalize_space s = "mid".toList ∨
          _normalize_space s = "high".toList by
        simpa [FREQ_LABELS] using h1) with hv | hv | hv <;> rw [hv] <;> decide
    · rw [Option.some.injEq] at h
      subst h
      decide
  · intro s v h
    unfold _normalize_phon at h
    dsimp only at h
    split_ifs at h with h1 h2
    · rw [Option.some.injEq] at h
      subst h
      rcases (show _normalize_space s = "consonant".toList ∨
          _normalize_space s = "vowel".toList ∨
          _normalize_space s = "unvoiced".toList by
        simpa [PHON_LABELS] using h1) with hv | hv | hv <;> rw [hv] <;> decide
    · rw [Option.some.injEq] at h
      subst h
      decide

/-- C8 witness: idempotence applied at a concrete accepted input. -/
theorem normalize_C8_witness :
    _normalize_time "speech".toList = some "speech".toList :=
  normalize_C8.2.2.2.2.2.1 "Speech".toList "speech".toList (by decide)
